import Mathlib

/-!
Shallow embedding of the note-synthesis engine of `src/Piano.py` and proofs
about it.

The engine is the Python function

  def generate_piano_note(frequency, duration=0.5, sample_rate=44100):
      t = np.linspace(0, duration, int(sample_rate * duration), False)
      note  = 0.7 * np.sin(2 * np.pi * frequency * t)
      note += 0.3 * np.sin(2 * np.pi * 2 * frequency * t)
      note += 0.2 * np.sin(2 * np.pi * 3 * frequency * t)
      note += 0.1 * np.sin(2 * np.pi * 4 * frequency * t)
      envelope = np.exp(-3 * t / duration)
      note = note * envelope
      audio = note * (2**15 - 1) / np.max(np.abs(note))
      audio = audio.astype(np.int16)
      ... WAV container + base64 encoding of `audio` ...

We embed the numeric computation over exact real arithmetic (numpy float64
is idealised as ℝ; the scalar inputs, which arrive as Python literals, are
kept as exact rationals).  The three places where the Python code has no
well-defined numeric result are made explicit with `Option`:

  * `np.linspace` raises `ValueError` when `int(sample_rate * duration)`
    is negative;
  * `np.max` raises `ValueError` on an empty array (zero samples);
  * when the raw waveform is identically zero the division
    `note * 32767 / np.max(np.abs(note))` is `0.0/0.0 = nan`, and
    `nan.astype(np.int16)` is undefined behaviour, so no defined sample
    list exists.

In those three cases the embedding returns `none`; otherwise it returns
`some` with the exact sample list.  The surrounding WAV/base64 encoding is
an injective deterministic serialisation of the samples and is not part of
any claim, so the embedding returns the sample list itself.
-/

open Real

/-- Python `int()` applied to a (rational-valued) number: truncation toward
zero, as in `int(sample_rate * duration)`. -/
def pyInt (q : ℚ) : ℤ := if 0 ≤ q then ⌊q⌋ else ⌈q⌉

/-- Truncation toward zero of a real number, which is what
`numpy.ndarray.astype(numpy.int16)` performs on values that fit in the
16-bit range. -/
noncomputable def truncInt (x : ℝ) : ℤ := if 0 ≤ x then ⌊x⌋ else ⌈x⌉

/-- `np.max(np.abs(l))` on a nonempty list: the fold of `max` over the
absolute values.  The base value `0` is a lower bound of every absolute
value, so on a nonempty list the fold equals the true maximum. -/
noncomputable def maxAbs (l : List ℝ) : ℝ := (l.map (fun x => |x|)).foldr max 0

/-- Maximum absolute value of an integer sample list (used to state
properties of the output buffer). -/
def maxAbsInt (l : List ℤ) : ℕ := (l.map Int.natAbs).foldr max 0

/-- The harmonic mix of `generate_piano_note` at time `t`:
`0.7·sin(2πft) + 0.3·sin(2π·2f·t) + 0.2·sin(2π·3f·t) + 0.1·sin(2π·4f·t)`. -/
noncomputable def noteWave (frequency : ℚ) (t : ℝ) : ℝ :=
  0.7 * sin (2 * π * frequency * t)
  + 0.3 * sin (2 * π * (2 * frequency) * t)
  + 0.2 * sin (2 * π * (3 * frequency) * t)
  + 0.1 * sin (2 * π * (4 * frequency) * t)

/-- The `k`-th entry of `np.linspace(0, duration, n, False)`:
`k * duration / n`. -/
noncomputable def sampleTime (duration : ℚ) (n k : ℕ) : ℝ :=
  (k : ℝ) * (duration : ℝ) / (n : ℝ)

/-- The `k`-th raw (pre-normalization) sample: the harmonic mix at
`t = sampleTime duration n k`, multiplied by the envelope
`exp(-3 t / duration)`. -/
noncomputable def rawSample (frequency duration : ℚ) (n k : ℕ) : ℝ :=
  noteWave frequency (sampleTime duration n k)
    * Real.exp (-3 * sampleTime duration n k / (duration : ℝ))

/-- The raw waveform `note * envelope` as a list of `n` samples. -/
noncomputable def rawWaveform (frequency duration : ℚ) (n : ℕ) : List ℝ :=
  (List.range n).map (rawSample frequency duration n)

/-- The normalization step
`audio = note * (2**15 - 1) / np.max(np.abs(note))` followed by
`audio.astype(np.int16)` (truncation toward zero). -/
noncomputable def normalizeAudio (l : List ℝ) : List ℤ :=
  l.map fun x => truncInt (x * 32767 / maxAbs l)

open Classical in
/-- Embedding of `generate_piano_note(frequency, duration=0.5,
sample_rate=44100)`.  Returns `some` with the exact list of 16-bit samples
when the Python code has a well-defined numeric result, and `none` when it
raises (`np.linspace` on a negative count, `np.max` on an empty array) or
when the normalization divides an identically-zero waveform by zero and
feeds `nan` to the integer cast (undefined behaviour). -/
noncomputable def generate_piano_note (frequency duration sample_rate : ℚ) :
    Option (List ℤ) :=
  let num : ℤ := pyInt (sample_rate * duration)
  if num < 0 then none
  else
    let n : ℕ := num.toNat
    if n = 0 then none
    else
      let raw := rawWaveform frequency duration n
      if maxAbs raw = 0 then none
      else some (normalizeAudio raw)

/-- The note lookup table `NOTE_FREQUENCIES` of `src/Piano.py` (C4..B4),
with the Python float literals kept as exact rationals. -/
def NOTE_FREQUENCIES : List (String × ℚ) :=
  [("C", 26163/100), ("D", 29366/100), ("E", 32963/100), ("F", 34923/100),
   ("G", 392), ("A", 440), ("B", 49388/100)]

/-- Dictionary access `NOTE_FREQUENCIES[note]`: `some` frequency for a key
present in the table, `none` for the `KeyError` raised on an absent key. -/
def lookupNote (note : String) : Option ℚ := NOTE_FREQUENCIES.lookup note

/-- The module-level mutable state of `src/Piano.py` that is visible to the
functions under study: `st.session_state.last_note`. -/
structure AppState where
  last_note : Option String
deriving DecidableEq

/-- `generate_piano_note` threaded through the ambient session state.  The
body of the Python function contains no reference to `st.session_state`
(or any other module state), so the faithful state-passing embedding
returns the state unchanged and a result that does not depend on it. -/
noncomputable def generate_piano_noteS (s : AppState) (frequency duration sample_rate : ℚ) :
    AppState × Option (List ℤ) :=
  (s, generate_piano_note frequency duration sample_rate)

/-- Embedding of `play_note(note)`: sets `st.session_state.last_note`,
then performs the dictionary access (which raises `KeyError`, i.e. `none`,
for an unknown identifier) and, on success, calls the engine with the
default duration `0.5` and sample rate `44100`. -/
noncomputable def play_noteS (_s : AppState) (note : String) :
    AppState × Option (Option (List ℤ)) :=
  match lookupNote note with
  | none => ({ last_note := some note }, none)
  | some fq => ({ last_note := some note }, some (generate_piano_note fq (1/2) 44100))

section BasicLemmas

theorem rawWaveform_length (f d : ℚ) (n : ℕ) : (rawWaveform f d n).length = n := by
  simp [rawWaveform]

theorem normalizeAudio_length (l : List ℝ) : (normalizeAudio l).length = l.length := by
  simp [normalizeAudio]

theorem maxAbs_nonneg (l : List ℝ) : 0 ≤ maxAbs l := by
  induction l with
  | nil => simp [maxAbs]
  | cons x xs ih =>
      simp only [maxAbs, List.map_cons, List.foldr_cons] at *
      exact le_trans ih (le_max_right _ _)

theorem le_maxAbs {l : List ℝ} {x : ℝ} (hx : x ∈ l) : |x| ≤ maxAbs l := by
  induction l with
  | nil => simp at hx
  | cons y ys ih =>
      simp only [maxAbs, List.map_cons, List.foldr_cons]
      rcases List.mem_cons.mp hx with h | h
      · subst h; exact le_max_left _ _
      · exact le_trans (ih h) (le_max_right _ _)

theorem maxAbs_le {l : List ℝ} {B : ℝ} (hB : 0 ≤ B) (h : ∀ x ∈ l, |x| ≤ B) :
    maxAbs l ≤ B := by
  induction l with
  | nil => simpa [maxAbs] using hB
  | cons y ys ih =>
      simp only [maxAbs, List.map_cons, List.foldr_cons, max_le_iff]
      refine ⟨h y (List.mem_cons_self y ys), ?_⟩
      exact ih fun x hx => h x (List.mem_cons_of_mem _ hx)

theorem maxAbs_attained {l : List ℝ} (h : l ≠ []) : ∃ x ∈ l, |x| = maxAbs l := by
  induction l with
  | nil => exact absurd rfl h
  | cons y ys ih =>
      rcases eq_or_ne ys [] with hys | hys
      · subst hys
        refine ⟨y, List.mem_cons_self y [], ?_⟩
        simp [maxAbs, max_eq_left (abs_nonneg y)]
      · obtain ⟨x, hxmem, hx⟩ := ih hys
        simp only [maxAbs, List.map_cons, List.foldr_cons]
        rcases le_total (maxAbs ys) |y| with hc | hc
        · refine ⟨y, List.mem_cons_self y ys, ?_⟩
          have : (ys.map fun x => |x|).foldr max 0 = maxAbs ys := rfl
          rw [this, max_eq_left hc]
        · refine ⟨x, List.mem_cons_of_mem _ hxmem, ?_⟩
          have : (ys.map fun x => |x|).foldr max 0 = maxAbs ys := rfl
          rw [this, max_eq_right hc, hx]

theorem le_maxAbsInt {l : List ℤ} {x : ℤ} (hx : x ∈ l) : x.natAbs ≤ maxAbsInt l := by
  induction l with
  | nil => simp at hx
  | cons y ys ih =>
      simp only [maxAbsInt, List.map_cons, List.foldr_cons]
      rcases List.mem_cons.mp hx with h | h
      · subst h; exact le_max_left _ _
      · exact le_trans (ih h) (le_max_right _ _)

theorem maxAbsInt_le {l : List ℤ} {B : ℕ} (h : ∀ x ∈ l, x.natAbs ≤ B) :
    maxAbsInt l ≤ B := by
  induction l with
  | nil => simp [maxAbsInt]
  | cons y ys ih =>
      simp only [maxAbsInt, List.map_cons, List.foldr_cons, max_le_iff]
      refine ⟨h y (List.mem_cons_self y ys), ?_⟩
      exact ih fun x hx => h x (List.mem_cons_of_mem _ hx)

theorem abs_truncInt_le (x : ℝ) : |(truncInt x : ℝ)| ≤ |x| := by
  unfold truncInt
  rcases le_or_lt 0 x with h | h
  · rw [if_pos h, abs_of_nonneg h, abs_of_nonneg]
    · exact Int.floor_le x
    · exact_mod_cast Int.floor_nonneg.mpr h
  · rw [if_neg (not_le.mpr h), abs_of_neg h, abs_of_nonpos]
    · rw [neg_le_neg_iff]; exact Int.le_ceil x
    · exact_mod_cast Int.ceil_le.mpr (by exact_mod_cast h.le)

theorem lt_abs_truncInt (x : ℝ) : |x| - 1 < |(truncInt x : ℝ)| := by
  unfold truncInt
  rcases le_or_lt 0 x with h | h
  · rw [if_pos h, abs_of_nonneg h, abs_of_nonneg]
    · linarith [Int.sub_one_lt_floor x]
    · exact_mod_cast Int.floor_nonneg.mpr h
  · rw [if_neg (not_le.mpr h), abs_of_neg h, abs_of_nonpos]
    · have := Int.ceil_lt_add_one x
      linarith
    · exact_mod_cast Int.ceil_le.mpr (by exact_mod_cast h.le)

theorem truncInt_intCast (m : ℤ) : truncInt (m : ℝ) = m := by
  unfold truncInt
  rcases le_or_lt 0 (m : ℝ) with h | h
  · rw [if_pos h, Int.floor_intCast]
  · rw [if_neg (not_le.mpr h), Int.ceil_intCast]

theorem truncInt_zero : truncInt 0 = 0 := by
  simpa using truncInt_intCast 0

end BasicLemmas

section Characterization

theorem generate_eq_some (f d sr : ℚ)
    (hn : (pyInt (sr * d)).toNat ≠ 0)
    (hm : maxAbs (rawWaveform f d (pyInt (sr * d)).toNat) ≠ 0) :
    generate_piano_note f d sr =
      some (normalizeAudio (rawWaveform f d (pyInt (sr * d)).toNat)) := by
  have hnum : ¬ pyInt (sr * d) < 0 := by
    intro hlt
    exact hn (by simp [Int.toNat_of_nonpos hlt.le])
  unfold generate_piano_note
  rw [if_neg hnum, if_neg hn, if_neg hm]

theorem generate_eq_none_of_max_zero (f d sr : ℚ)
    (hm : maxAbs (rawWaveform f d (pyInt (sr * d)).toNat) = 0) :
    generate_piano_note f d sr = none := by
  unfold generate_piano_note
  by_cases hnum : pyInt (sr * d) < 0
  · rw [if_pos hnum]
  · rw [if_neg hnum]
    by_cases hn : (pyInt (sr * d)).toNat = 0
    · rw [if_pos hn]
    · rw [if_neg hn, if_pos hm]

theorem generate_eq_none_of_n_zero (f d sr : ℚ)
    (hn : (pyInt (sr * d)).toNat = 0) :
    generate_piano_note f d sr = none := by
  unfold generate_piano_note
  by_cases hnum : pyInt (sr * d) < 0
  · rw [if_pos hnum]
  · rw [if_neg hnum, if_pos hn]

theorem normalizeAudio_bounds {l : List ℝ} (hm : maxAbs l ≠ 0) :
    ∀ x ∈ normalizeAudio l, -32767 ≤ x ∧ x ≤ 32767 := by
  intro x hx
  obtain ⟨y, hy, rfl⟩ := List.mem_map.mp hx
  have hmpos : 0 < maxAbs l := lt_of_le_of_ne (maxAbs_nonneg l) (Ne.symm hm)
  have hyle : |y| ≤ maxAbs l := le_maxAbs hy
  have harg : |y * 32767 / maxAbs l| ≤ 32767 := by
    rw [abs_div, abs_mul, abs_of_pos hmpos]
    rw [div_le_iff₀ hmpos]
    have : |(32767 : ℝ)| = 32767 := by norm_num
    rw [this]
    nlinarith [abs_nonneg y]
  have h := (abs_truncInt_le (y * 32767 / maxAbs l)).trans harg
  rw [abs_le] at h
  constructor
  · exact_mod_cast h.1
  · exact_mod_cast h.2

theorem natAbs_le_of_abs_le {x : ℤ} {B : ℕ} (h : -(B : ℤ) ≤ x ∧ x ≤ B) :
    x.natAbs ≤ B := by omega

theorem normalizeAudio_peak {l : List ℝ} (hne : l ≠ []) (hm : maxAbs l ≠ 0) :
    maxAbsInt (normalizeAudio l) = 32767 := by
  have hmpos : 0 < maxAbs l := lt_of_le_of_ne (maxAbs_nonneg l) (Ne.symm hm)
  apply le_antisymm
  · apply maxAbsInt_le
    intro x hx
    exact natAbs_le_of_abs_le (by exact_mod_cast normalizeAudio_bounds hm x hx)
  · obtain ⟨y, hy, hymax⟩ := maxAbs_attained hne
    have hmem : truncInt (y * 32767 / maxAbs l) ∈ normalizeAudio l :=
      List.mem_map_of_mem _ hy
    have hy0 : y ≠ 0 := by
      intro h0
      rw [h0, abs_zero] at hymax
      exact hm hymax.symm
    have hval : (truncInt (y * 32767 / maxAbs l)).natAbs = 32767 := by
      rcases abs_cases y with ⟨hcase, _⟩ | ⟨hcase, _⟩
      · have harg : y * 32767 / maxAbs l = ((32767 : ℤ) : ℝ) := by
          rw [← hymax, hcase, mul_comm, mul_div_assoc, div_self hy0, mul_one]
          norm_num
        rw [harg, truncInt_intCast]
        rfl
      · have harg : y * 32767 / maxAbs l = ((-32767 : ℤ) : ℝ) := by
          rw [← hymax, hcase, div_neg, mul_comm, mul_div_assoc, div_self hy0, mul_one]
          norm_num
        rw [harg, truncInt_intCast]
        rfl
    calc (32767 : ℕ) = (truncInt (y * 32767 / maxAbs l)).natAbs := hval.symm
      _ ≤ maxAbsInt (normalizeAudio l) := le_maxAbsInt hmem

end Characterization

section ConcreteSmall

theorem rawSample_zero (f d : ℚ) (n : ℕ) : rawSample f d n 0 = 0 := by
  simp [rawSample, sampleTime, noteWave]

theorem rawSample_mem {k n : ℕ} (f d : ℚ) (hk : k < n) :
    rawSample f d n k ∈ rawWaveform f d n :=
  List.mem_map_of_mem _ (List.mem_range.mpr hk)

theorem sin_three_pi_div_two : sin (3 * π / 2) = -1 := by
  have h : (3 * π / 2 : ℝ) = π / 2 + π := by ring
  rw [h, sin_add_pi, sin_pi_div_two]

theorem sampleTime_two_one : sampleTime 1 2 1 = 1/2 := by
  norm_num [sampleTime]

theorem noteWave_half_half : noteWave (1/2) (1/2 : ℝ) = 1/2 := by
  unfold noteWave
  have h1 : 2 * π * (((1:ℚ)/2 : ℚ) : ℝ) * (1/2 : ℝ) = π / 2 := by push_cast; ring
  have h2 : 2 * π * (2 * (((1:ℚ)/2 : ℚ) : ℝ)) * (1/2 : ℝ) = π := by push_cast; ring
  have h3 : 2 * π * (3 * (((1:ℚ)/2 : ℚ) : ℝ)) * (1/2 : ℝ) = 3 * π / 2 := by push_cast; ring
  have h4 : 2 * π * (4 * (((1:ℚ)/2 : ℚ) : ℝ)) * (1/2 : ℝ) = 2 * π := by push_cast; ring
  rw [h1, h2, h3, h4, sin_pi_div_two, sin_pi, sin_three_pi_div_two, sin_two_pi]
  norm_num

theorem rawSample_half_one :
    rawSample (1/2) 1 2 1 = Real.exp (-(3/2 : ℝ)) * (1/2) := by
  unfold rawSample
  rw [sampleTime_two_one, noteWave_half_half]
  have h : -3 * (1/2 : ℝ) / ((1 : ℚ) : ℝ) = -(3/2 : ℝ) := by push_cast; ring
  rw [h]
  ring

theorem rawWaveform_half :
    rawWaveform (1/2) 1 2 = [0, Real.exp (-(3/2 : ℝ)) * (1/2)] := by
  have h2 : List.range 2 = [0, 1] := rfl
  simp only [rawWaveform, h2, List.map_cons, List.map_nil,
    rawSample_zero, rawSample_half_one]

theorem maxAbs_pair_pos {v : ℝ} (hv : 0 < v) : maxAbs [0, v] = v := by
  simp [maxAbs, abs_of_nonneg hv.le, max_eq_left hv.le, max_eq_right hv.le]

theorem maxAbs_pair_neg {v : ℝ} (hv : 0 < v) : maxAbs [0, -v] = v := by
  simp [maxAbs, abs_of_nonneg hv.le, max_eq_left hv.le, max_eq_right hv.le]

theorem exp_half_pos : (0 : ℝ) < Real.exp (-(3/2 : ℝ)) * (1/2) := by positivity

theorem maxAbs_half :
    maxAbs (rawWaveform (1/2) 1 2) = Real.exp (-(3/2 : ℝ)) * (1/2) := by
  rw [rawWaveform_half, maxAbs_pair_pos exp_half_pos]

theorem pyInt_two : pyInt ((2:ℚ) * 1) = 2 := by
  rw [pyInt, if_pos (by norm_num : (0:ℚ) ≤ 2 * 1)]
  norm_num

theorem generate_half : generate_piano_note (1/2) 1 2 = some [0, 32767] := by
  have hv := exp_half_pos
  have hn : (pyInt ((2:ℚ) * 1)).toNat ≠ 0 := by rw [pyInt_two]; decide
  have hm : maxAbs (rawWaveform (1/2) 1 (pyInt ((2:ℚ) * 1)).toNat) ≠ 0 := by
    rw [pyInt_two]
    show maxAbs (rawWaveform (1/2) 1 2) ≠ 0
    rw [maxAbs_half]
    exact ne_of_gt hv
  rw [generate_eq_some (1/2) 1 2 hn hm, pyInt_two]
  show some (normalizeAudio (rawWaveform (1/2) 1 2)) = _
  unfold normalizeAudio
  rw [maxAbs_half, rawWaveform_half]
  have hz : (0:ℝ) * 32767 / (Real.exp (-(3/2 : ℝ)) * (1/2)) = 0 := by
    rw [zero_mul, zero_div]
  have ho : Real.exp (-(3/2 : ℝ)) * (1/2) * 32767 / (Real.exp (-(3/2 : ℝ)) * (1/2)) =
      ((32767 : ℤ) : ℝ) := by
    rw [mul_comm, mul_div_assoc, div_self (ne_of_gt exp_half_pos), mul_one]
    norm_num
  simp only [List.map_cons, List.map_nil, hz, ho, truncInt_zero, truncInt_intCast]

end ConcreteSmall

section ConcreteNeg

theorem noteWave_neg_half_half : noteWave (-(1/2)) (1/2 : ℝ) = -(1/2) := by
  unfold noteWave
  have h1 : 2 * π * ((-(1/2) : ℚ) : ℝ) * (1/2 : ℝ) = -(π / 2) := by push_cast; ring
  have h2 : 2 * π * (2 * ((-(1/2) : ℚ) : ℝ)) * (1/2 : ℝ) = -π := by push_cast; ring
  have h3 : 2 * π * (3 * ((-(1/2) : ℚ) : ℝ)) * (1/2 : ℝ) = -(3 * π / 2) := by push_cast; ring
  have h4 : 2 * π * (4 * ((-(1/2) : ℚ) : ℝ)) * (1/2 : ℝ) = -(2 * π) := by push_cast; ring
  rw [h1, h2, h3, h4, sin_neg, sin_neg, sin_neg, sin_neg,
    sin_pi_div_two, sin_pi, sin_three_pi_div_two, sin_two_pi]
  norm_num

theorem rawSample_neg_half_one :
    rawSample (-(1/2)) 1 2 1 = -(Real.exp (-(3/2 : ℝ)) * (1/2)) := by
  unfold rawSample
  rw [sampleTime_two_one, noteWave_neg_half_half]
  have h : -3 * (1/2 : ℝ) / ((1 : ℚ) : ℝ) = -(3/2 : ℝ) := by push_cast; ring
  rw [h]
  ring

theorem rawWaveform_neg_half :
    rawWaveform (-(1/2)) 1 2 = [0, -(Real.exp (-(3/2 : ℝ)) * (1/2))] := by
  have h2 : List.range 2 = [0, 1] := rfl
  simp only [rawWaveform, h2, List.map_cons, List.map_nil,
    rawSample_zero, rawSample_neg_half_one]

theorem pyInt_half_zero : pyInt ((1:ℚ) * (1/2)) = 0 := by
  have h : (1:ℚ) * (1/2) = 1/2 := by norm_num
  rw [pyInt, h, if_pos (by norm_num : (0:ℚ) ≤ 1/2), Int.floor_eq_zero_iff,
    Set.mem_Ico]
  constructor <;> norm_num

theorem pyInt_tiny_zero : pyInt ((44100:ℚ) * (1/100000)) = 0 := by
  have h : (44100:ℚ) * (1/100000) = 441/1000 := by norm_num
  rw [pyInt, h, if_pos (by norm_num : (0:ℚ) ≤ 441/1000), Int.floor_eq_zero_iff,
    Set.mem_Ico]
  constructor <;> norm_num

end ConcreteNeg

section ClaimTheorems

/-- C1 (counterexample).  The claim states that for every frequency > 0,
duration > 0 and sample rate > 0 the engine returns a buffer of exactly
floor(duration*sampleRate) samples in range.  At frequency 440,
duration 1/2, sample rate 1 all three parameters are positive and
floor(duration*sampleRate) = 0, yet the code raises (`np.max` of the empty
waveform), i.e. returns no buffer at all. -/
theorem C1_counterexample :
    (0:ℚ) < 440 ∧ (0:ℚ) < 1/2 ∧ (0:ℚ) < 1 ∧
      generate_piano_note 440 (1/2) 1 = none ∧
      ¬ ∃ l, generate_piano_note 440 (1/2) 1 = some l ∧
        l.length = (⌊(1:ℚ) * (1/2)⌋).toNat ∧
        ∀ x ∈ l, -32767 ≤ x ∧ x ≤ 32767 := by
  have hnone : generate_piano_note 440 (1/2) 1 = none := by
    apply generate_eq_none_of_n_zero
    rw [pyInt_half_zero]
    rfl
  refine ⟨by norm_num, by norm_num, by norm_num, hnone, ?_⟩
  rintro ⟨l, hl, _⟩
  rw [hnone] at hl
  exact Option.noConfusion hl

/-- C1 (amended).  For every frequency > 0, duration > 0, sample rate > 0
such that the buffer is nonempty (floor(sampleRate*duration) ≥ 1) and the
raw waveform is not identically zero, `generate_piano_note` returns exactly
floor(sampleRate*duration) samples, each within [-32767, 32767]. -/
theorem C1_length_and_range (f d sr : ℚ) (hf : 0 < f) (hd : 0 < d) (hsr : 0 < sr)
    (hn : 1 ≤ ⌊sr * d⌋)
    (hm : maxAbs (rawWaveform f d (⌊sr * d⌋).toNat) ≠ 0) :
    ∃ l, generate_piano_note f d sr = some l ∧
      l.length = (⌊sr * d⌋).toNat ∧ ∀ x ∈ l, -32767 ≤ x ∧ x ≤ 32767 := by
  have hpy : pyInt (sr * d) = ⌊sr * d⌋ := by
    rw [pyInt, if_pos (le_of_lt (mul_pos hsr hd))]
  have hn0 : (pyInt (sr * d)).toNat ≠ 0 := by
    rw [hpy]
    omega
  have hm0 : maxAbs (rawWaveform f d (pyInt (sr * d)).toNat) ≠ 0 := by
    rw [hpy]; exact hm
  refine ⟨_, generate_eq_some f d sr hn0 hm0, ?_, normalizeAudio_bounds hm0⟩
  rw [normalizeAudio_length, rawWaveform_length, hpy]

/-- C1 (witness).  Instantiation of the amended claim at frequency 1/2,
duration 1, sample rate 2: two samples, both within range. -/
theorem C1_witness :
    ((0:ℚ) < 1/2 ∧ (0:ℚ) < 1 ∧ (0:ℚ) < 2 ∧ 1 ≤ ⌊(2:ℚ) * 1⌋ ∧
      maxAbs (rawWaveform (1/2) 1 (⌊(2:ℚ) * 1⌋).toNat) ≠ 0) ∧
      ∃ l, generate_piano_note (1/2) 1 2 = some l ∧
        l.length = (⌊(2:ℚ) * 1⌋).toNat ∧ ∀ x ∈ l, -32767 ≤ x ∧ x ≤ 32767 := by
  have hfl : ⌊(2:ℚ) * 1⌋ = 2 := by norm_num
  have hm : maxAbs (rawWaveform (1/2) 1 (⌊(2:ℚ) * 1⌋).toNat) ≠ 0 := by
    rw [hfl]
    show maxAbs (rawWaveform (1/2) 1 2) ≠ 0
    rw [maxAbs_half]
    exact ne_of_gt exp_half_pos
  have hn : 1 ≤ ⌊(2:ℚ) * 1⌋ := by rw [hfl]; norm_num
  exact ⟨⟨by norm_num, by norm_num, by norm_num, hn, hm⟩,
    C1_length_and_range (1/2) 1 2 (by norm_num) (by norm_num) (by norm_num) hn hm⟩

/-- C2 (code bug).  The spec mandates that a request rounding to zero
samples (sampleRate * duration < 1) is special-cased to return an empty
buffer with no numeric fault.  The code has no such guard:
at frequency 440, duration 1/100000, sample rate 44100 the waveform has
zero samples and `np.max(np.abs(note))` raises `ValueError` (embedded as
`none`) instead of returning an empty buffer. -/
theorem C2_zero_sample_fault :
    (0:ℚ) < 440 ∧ (0:ℚ) < 1/100000 ∧ (0:ℚ) < 44100 ∧
      (44100:ℚ) * (1/100000) < 1 ∧
      generate_piano_note 440 (1/100000) 44100 = none := by
  refine ⟨by norm_num, by norm_num, by norm_num, by norm_num, ?_⟩
  apply generate_eq_none_of_n_zero
  rw [pyInt_tiny_zero]
  rfl

/-- C4 (code bug).  The spec mandates that frequency ≤ 0, duration ≤ 0 or
sampleRate ≤ 0 is rejected with an explicit failure.  The code performs no
validation: at frequency -1/2 (with valid duration 1 and sample rate 2) it
silently returns a well-formed 2-sample buffer instead of failing. -/
theorem C4_negative_frequency_not_rejected :
    (-(1/2) : ℚ) ≤ 0 ∧
      ∃ l, generate_piano_note (-(1/2)) 1 2 = some l ∧ l.length = 2 := by
  have hv := exp_half_pos
  have hn : (pyInt ((2:ℚ) * 1)).toNat ≠ 0 := by rw [pyInt_two]; decide
  have hm : maxAbs (rawWaveform (-(1/2)) 1 (pyInt ((2:ℚ) * 1)).toNat) ≠ 0 := by
    rw [pyInt_two]
    show maxAbs (rawWaveform (-(1/2)) 1 2) ≠ 0
    rw [rawWaveform_neg_half, maxAbs_pair_neg hv]
    exact ne_of_gt hv
  refine ⟨by norm_num, _, generate_eq_some (-(1/2)) 1 2 hn hm, ?_⟩
  rw [normalizeAudio_length, rawWaveform_length, pyInt_two]
  rfl

/-- C5.  For every input whose raw (pre-normalization) waveform is not
identically zero, `generate_piano_note` succeeds and the maximum absolute
sample value of its output equals exactly 32767. -/
theorem C5_peak_is_32767 (f d sr : ℚ)
    (hnz : ∃ x ∈ rawWaveform f d (pyInt (sr * d)).toNat, x ≠ 0) :
    ∃ l, generate_piano_note f d sr = some l ∧ maxAbsInt l = 32767 := by
  obtain ⟨x, hxmem, hx⟩ := hnz
  have hm : maxAbs (rawWaveform f d (pyInt (sr * d)).toNat) ≠ 0 := by
    intro h0
    have hle := le_maxAbs hxmem
    rw [h0] at hle
    exact hx (abs_eq_zero.mp (le_antisymm hle (abs_nonneg x)))
  have hn : (pyInt (sr * d)).toNat ≠ 0 := by
    intro h0
    rw [h0] at hxmem
    simp [rawWaveform] at hxmem
  refine ⟨_, generate_eq_some f d sr hn hm, ?_⟩
  refine normalizeAudio_peak ?_ hm
  intro hemp
  rw [hemp] at hxmem
  simp at hxmem

/-- C5 (witness).  At frequency 1/2, duration 1, sample rate 2 the raw
waveform has the nonzero sample exp(-3/2)/2, and the output's maximum
absolute sample is exactly 32767. -/
theorem C5_witness :
    (∃ x ∈ rawWaveform (1/2) 1 (pyInt ((2:ℚ) * 1)).toNat, x ≠ 0) ∧
      ∃ l, generate_piano_note (1/2) 1 2 = some l ∧ maxAbsInt l = 32767 := by
  have hnz : ∃ x ∈ rawWaveform (1/2) 1 (pyInt ((2:ℚ) * 1)).toNat, x ≠ 0 := by
    rw [pyInt_two]
    show ∃ x ∈ rawWaveform (1/2) 1 2, x ≠ 0
    refine ⟨Real.exp (-(3/2 : ℝ)) * (1/2), ?_, ne_of_gt exp_half_pos⟩
    rw [rawWaveform_half]
    simp
  exact ⟨hnz, C5_peak_is_32767 (1/2) 1 2 hnz⟩

/-- C7.  Determinism: two calls of the engine with identical frequency,
duration and sample-rate arguments yield identical (bit-identical) sample
sequences.  In the embedding the engine is a function of exactly these
three arguments, so equal arguments give equal outputs. -/
theorem C7_deterministic (f1 d1 sr1 f2 d2 sr2 : ℚ)
    (hf : f1 = f2) (hd : d1 = d2) (hsr : sr1 = sr2) :
    generate_piano_note f1 d1 sr1 = generate_piano_note f2 d2 sr2 := by
  rw [hf, hd, hsr]

/-- C7 (witness).  Two calls at 440 Hz, duration 1/2, sample rate 44100
agree. -/
theorem C7_witness :
    ((440:ℚ) = 440 ∧ (1/2:ℚ) = 1/2 ∧ (44100:ℚ) = 44100) ∧
      generate_piano_note 440 (1/2) 44100 = generate_piano_note 440 (1/2) 44100 :=
  ⟨⟨rfl, rfl, rfl⟩, C7_deterministic 440 (1/2) 44100 440 (1/2) 44100 rfl rfl rfl⟩

/-- C9.  Purity/frame property: a call of the engine leaves the ambient
session state unchanged, and its result does not depend on that state
(hence has no hidden dependency on prior calls, which can only act on the
state).  The body of `generate_piano_note` references no module state, so
the state-passing embedding returns the state untouched. -/
theorem C9_pure_frame (s t : AppState) (f d sr : ℚ) :
    (generate_piano_noteS s f d sr).1 = s ∧
      (generate_piano_noteS s f d sr).2 = (generate_piano_noteS t f d sr).2 :=
  ⟨rfl, rfl⟩

/-- C10.  Whenever the engine returns a buffer (for positive frequency,
duration and sample rate), the sample at index 0 is exactly 0: the time
axis starts at t = 0, every harmonic is a sine vanishing there, the
envelope maps 0 to 0 under multiplication, and normalization and
truncation both fix 0. -/
theorem C10_first_sample_zero (f d sr : ℚ) (hf : 0 < f) (hd : 0 < d)
    (hsr : 0 < sr) (l : List ℤ)
    (h : generate_piano_note f d sr = some l) : l.get? 0 = some 0 := by
  unfold generate_piano_note at h
  by_cases h1 : pyInt (sr * d) < 0
  · rw [if_pos h1] at h; exact absurd h (by simp)
  rw [if_neg h1] at h
  by_cases h2 : (pyInt (sr * d)).toNat = 0
  · rw [if_pos h2] at h; exact absurd h (by simp)
  rw [if_neg h2] at h
  by_cases h3 : maxAbs (rawWaveform f d (pyInt (sr * d)).toNat) = 0
  · rw [if_pos h3] at h; exact absurd h (by simp)
  rw [if_neg h3] at h
  have hl : l = normalizeAudio (rawWaveform f d (pyInt (sr * d)).toNat) :=
    (Option.some_inj.mp h).symm
  subst hl
  have hpos : 0 < (pyInt (sr * d)).toNat := Nat.pos_of_ne_zero h2
  rw [normalizeAudio, List.get?_map, rawWaveform, List.get?_map,
    List.get?_range hpos]
  simp [rawSample_zero, truncInt_zero]

/-- C10 (witness).  At frequency 1/2, duration 1, sample rate 2 the engine
returns [0, 32767], whose sample at index 0 is 0. -/
theorem C10_witness :
    ((0:ℚ) < 1/2 ∧ (0:ℚ) < 1 ∧ (0:ℚ) < 2 ∧
      generate_piano_note (1/2) 1 2 = some [0, 32767]) ∧
      ([0, 32767] : List ℤ).get? 0 = some 0 :=
  ⟨⟨by norm_num, by norm_num, by norm_num, generate_half⟩,
    C10_first_sample_zero (1/2) 1 2 (by norm_num) (by norm_num) (by norm_num)
      _ generate_half⟩

end ClaimTheorems

section LookupClaim

/-- C8.  The note lookup returns 261.63 Hz for C and 440.00 Hz for A, and
dictionary access fails (raises `KeyError`, embedded as `none`) for every
identifier absent from the seven-entry table, rather than returning a
default frequency. -/
theorem C8_lookup :
    lookupNote "C" = some (26163/100) ∧ lookupNote "A" = some 440 ∧
      ∀ s : String, s ∉ (["C", "D", "E", "F", "G", "A", "B"] : List String) →
        lookupNote s = none := by
  refine ⟨rfl, rfl, ?_⟩
  intro s hs
  simp only [List.mem_cons, List.not_mem_nil, or_false, not_or] at hs
  obtain ⟨h1, h2, h3, h4, h5, h6, h7⟩ := hs
  have e1 : ((s : String) == "C") = false := beq_eq_false_iff_ne.mpr h1
  have e2 : ((s : String) == "D") = false := beq_eq_false_iff_ne.mpr h2
  have e3 : ((s : String) == "E") = false := beq_eq_false_iff_ne.mpr h3
  have e4 : ((s : String) == "F") = false := beq_eq_false_iff_ne.mpr h4
  have e5 : ((s : String) == "G") = false := beq_eq_false_iff_ne.mpr h5
  have e6 : ((s : String) == "A") = false := beq_eq_false_iff_ne.mpr h6
  have e7 : ((s : String) == "B") = false := beq_eq_false_iff_ne.mpr h7
  simp [lookupNote, NOTE_FREQUENCIES, List.lookup, e1, e2, e3, e4, e5, e6, e7]

/-- C8 (witness).  The unknown identifier H is not one of the seven keys
and its lookup returns no frequency. -/
theorem C8_witness :
    ("H" : String) ∉ (["C", "D", "E", "F", "G", "A", "B"] : List String) ∧
      lookupNote "H" = none :=
  ⟨by decide, C8_lookup.2.2 "H" (by decide)⟩

end LookupClaim

section GenericBounds

theorem abs_noteWave_le (f : ℚ) (t : ℝ) : |noteWave f t| ≤ 13/10 := by
  unfold noteWave
  have b1 := abs_sin_le_one (2 * π * (f : ℝ) * t)
  have b2 := abs_sin_le_one (2 * π * (2 * (f : ℝ)) * t)
  have b3 := abs_sin_le_one (2 * π * (3 * (f : ℝ)) * t)
  have b4 := abs_sin_le_one (2 * π * (4 * (f : ℝ)) * t)
  have h1 := abs_le.mp b1
  have h2 := abs_le.mp b2
  have h3 := abs_le.mp b3
  have h4 := abs_le.mp b4
  rw [abs_le]
  constructor <;> nlinarith [h1.1, h1.2, h2.1, h2.2, h3.1, h3.2, h4.1, h4.2]

theorem envelope_exponent_eq (d : ℚ) (hd : d ≠ 0) (n k : ℕ) :
    -3 * sampleTime d n k / (d : ℝ) = -3 * (k : ℝ) / (n : ℝ) := by
  have hd0 : (d : ℝ) ≠ 0 := by exact_mod_cast hd
  unfold sampleTime
  rcases eq_or_ne (n : ℝ) 0 with hn | hn
  · rw [hn]
    simp
  · field_simp
    ring

theorem abs_rawSample_le (f d : ℚ) (hd : d ≠ 0) (n k : ℕ) :
    |rawSample f d n k| ≤ 13/10 * Real.exp (-3 * (k : ℝ) / (n : ℝ)) := by
  unfold rawSample
  rw [abs_mul, abs_of_pos (Real.exp_pos _), envelope_exponent_eq d hd n k]
  exact mul_le_mul_of_nonneg_right (abs_noteWave_le f _) (Real.exp_pos _).le

theorem exp_envelope_le_one (n k : ℕ) :
    Real.exp (-3 * (k : ℝ) / (n : ℝ)) ≤ 1 := by
  rw [Real.exp_le_one_iff]
  have hk : (0:ℝ) ≤ (k : ℝ) := Nat.cast_nonneg k
  have hn : (0:ℝ) ≤ (n : ℝ) := Nat.cast_nonneg n
  have : -3 * (k : ℝ) ≤ 0 := by linarith
  exact div_nonpos_of_nonpos_of_nonneg this hn

theorem maxAbs_rawWaveform_le (f d : ℚ) (hd : d ≠ 0) (n : ℕ) :
    maxAbs (rawWaveform f d n) ≤ 13/10 := by
  apply maxAbs_le (by norm_num)
  intro x hx
  obtain ⟨k, _, rfl⟩ := List.mem_map.mp hx
  calc |rawSample f d n k| ≤ 13/10 * Real.exp (-3 * (k : ℝ) / (n : ℝ)) :=
        abs_rawSample_le f d hd n k
    _ ≤ 13/10 * 1 := by
        have := exp_envelope_le_one n k
        nlinarith [Real.exp_pos (-3 * (k : ℝ) / (n : ℝ))]
    _ = 13/10 := by norm_num

theorem exp_three_half_le : Real.exp (-(3/2 : ℝ)) ≤ (16/19 : ℝ)^8 := by
  have h1 : (19/16 : ℝ) ≤ Real.exp (3/16) := by
    have := Real.add_one_le_exp (3/16 : ℝ)
    linarith
  have h2 : ((19/16 : ℝ))^8 ≤ (Real.exp (3/16))^8 := by
    apply pow_le_pow_left (by norm_num) h1
  have h3 : (Real.exp (3/16))^8 = Real.exp (3/2) := by
    rw [← Real.exp_nat_mul]
    norm_num
  have h4 : ((19/16 : ℝ))^8 ≤ Real.exp (3/2) := by rw [← h3]; exact h2
  have h5 : (0:ℝ) < (19/16 : ℝ)^8 := by positivity
  rw [Real.exp_neg]
  rw [show (16/19 : ℝ)^8 = ((19/16 : ℝ)^8)⁻¹ by rw [← inv_pow]; norm_num]
  exact inv_le_inv_of_le h5 h4

theorem exists_index_of_mem_drop {α : Type} {l : List α} {i : ℕ} {x : α}
    (h : x ∈ l.drop i) : ∃ j, i ≤ j ∧ l.get? j = some x := by
  induction l generalizing i with
  | nil => simp at h
  | cons y ys ih =>
      cases i with
      | zero =>
          rw [List.drop_zero] at h
          obtain ⟨j, hj⟩ := List.mem_iff_get?.mp h
          exact ⟨j, Nat.zero_le j, hj⟩
      | succ i =>
          have h2 : x ∈ ys.drop i := by simpa using h
          obtain ⟨j, hij, hj⟩ := ih h2
          exact ⟨j + 1, Nat.succ_le_succ hij, by simpa using hj⟩

theorem normalizeAudio_raw_get (f d : ℚ) {n k : ℕ} (hk : k < n) :
    (normalizeAudio (rawWaveform f d n)).get? k =
      some (truncInt (rawSample f d n k * 32767 /
        maxAbs (rawWaveform f d n))) := by
  rw [normalizeAudio, List.get?_map, rawWaveform, List.get?_map,
    List.get?_range hk]
  rfl

theorem maxAbsInt_cast_le {l : List ℤ} {C : ℝ} (hC : 0 ≤ C)
    (h : ∀ x ∈ l, ((x.natAbs : ℕ) : ℝ) ≤ C) : ((maxAbsInt l : ℕ) : ℝ) ≤ C := by
  induction l with
  | nil => simpa [maxAbsInt] using hC
  | cons y ys ih =>
      have hy : ((y.natAbs : ℕ) : ℝ) ≤ C := h y (List.mem_cons_self y ys)
      have hys : ((maxAbsInt ys : ℕ) : ℝ) ≤ C :=
        ih fun x hx => h x (List.mem_cons_of_mem _ hx)
      have : maxAbsInt (y :: ys) = max y.natAbs (maxAbsInt ys) := rfl
      rw [this, Nat.cast_max]
      exact max_le hy hys

end GenericBounds

theorem natAbs_cast_real (x : ℤ) : ((x.natAbs : ℕ) : ℝ) = |(x : ℝ)| := by
  rw [Int.cast_natAbs, Int.cast_abs]

section DecayTheorem

theorem generate_some_inv {f d sr : ℚ} {l : List ℤ}
    (h : generate_piano_note f d sr = some l) :
    l = normalizeAudio (rawWaveform f d (pyInt (sr * d)).toNat) ∧
      (pyInt (sr * d)).toNat ≠ 0 ∧
      maxAbs (rawWaveform f d (pyInt (sr * d)).toNat) ≠ 0 := by
  unfold generate_piano_note at h
  by_cases h1 : pyInt (sr * d) < 0
  · rw [if_pos h1] at h; exact absurd h (by simp)
  rw [if_neg h1] at h
  by_cases h2 : (pyInt (sr * d)).toNat = 0
  · rw [if_pos h2] at h; exact absurd h (by simp)
  rw [if_neg h2] at h
  by_cases h3 : maxAbs (rawWaveform f d (pyInt (sr * d)).toNat) = 0
  · rw [if_pos h3] at h; exact absurd h (by simp)
  rw [if_neg h3] at h
  exact ⟨(Option.some_inj.mp h).symm, h2, h3⟩

/-- C6 (amended).  Aggregate decay: whenever `generate_piano_note`
returns a buffer and some sample in the first tenth of the raw waveform
has absolute value at least 1/3 (which holds when the buffer spans several
periods of the fundamental sampled well below the Nyquist limit, but can
fail under aliasing), the maximum absolute sample value in the second half
of the output buffer is strictly smaller than the maximum absolute sample
value in its first tenth. -/
theorem C6_decay (f d sr : ℚ) (n : ℕ) (l : List ℤ) (k : ℕ)
    (hn_eq : (pyInt (sr * d)).toNat = n)
    (h : generate_piano_note f d sr = some l)
    (hk : k < n / 10)
    (hbig : 1/3 ≤ |rawSample f d n k|) :
    maxAbsInt (l.drop ((l.length + 1) / 2)) <
      maxAbsInt (l.take (l.length / 10)) := by
  obtain ⟨hl, hn0, hm0⟩ := generate_some_inv h
  rw [hn_eq] at hl hn0 hm0
  have hd : d ≠ 0 := by
    intro h0
    apply hn0
    rw [← hn_eq, h0, mul_zero]
    decide
  have hmpos0 : 0 ≤ maxAbs (rawWaveform f d n) := maxAbs_nonneg _
  have hkn : k < n := lt_of_lt_of_le hk (Nat.div_le_self n 10)
  have hm_ge : 1/3 ≤ maxAbs (rawWaveform f d n) :=
    le_trans hbig (le_maxAbs (rawSample_mem f d hkn))
  have hmpos : 0 < maxAbs (rawWaveform f d n) :=
    lt_of_lt_of_le (by norm_num) hm_ge
  have hm13 : maxAbs (rawWaveform f d n) ≤ 13/10 := maxAbs_rawWaveform_le f d hd n
  have hlen : l.length = n := by
    rw [hl, normalizeAudio_length, rawWaveform_length]
  -- lower bound for the first tenth
  have hget : l.get? k =
      some (truncInt (rawSample f d n k * 32767 / maxAbs (rawWaveform f d n))) := by
    rw [hl]; exact normalizeAudio_raw_get f d hkn
  have htake : (l.take (l.length / 10)).get? k = l.get? k := by
    rw [hlen]; exact List.get?_take hk
  have hmemB : truncInt (rawSample f d n k * 32767 / maxAbs (rawWaveform f d n)) ∈
      l.take (l.length / 10) :=
    List.get?_mem (by rw [htake, hget])
  have hBnat :
      (truncInt (rawSample f d n k * 32767 / maxAbs (rawWaveform f d n))).natAbs ≤
        maxAbsInt (l.take (l.length / 10)) := le_maxAbsInt hmemB
  have hBreal : (32767/3) / maxAbs (rawWaveform f d n) - 1 <
      ((maxAbsInt (l.take (l.length / 10)) : ℕ) : ℝ) := by
    have h1 : (1/3 : ℝ) * 32767 / maxAbs (rawWaveform f d n) ≤
        |rawSample f d n k * 32767 / maxAbs (rawWaveform f d n)| := by
      rw [abs_div, abs_mul, abs_of_pos hmpos,
        show |(32767:ℝ)| = 32767 by norm_num]
      gcongr
    have h2 := lt_abs_truncInt (rawSample f d n k * 32767 / maxAbs (rawWaveform f d n))
    have h3 : |((truncInt (rawSample f d n k * 32767 / maxAbs (rawWaveform f d n)) : ℤ) : ℝ)| =
        (((truncInt (rawSample f d n k * 32767 / maxAbs (rawWaveform f d n))).natAbs : ℕ) : ℝ) :=
      (natAbs_cast_real _).symm
    have h4 : (((truncInt (rawSample f d n k * 32767 / maxAbs (rawWaveform f d n))).natAbs : ℕ) : ℝ) ≤
        ((maxAbsInt (l.take (l.length / 10)) : ℕ) : ℝ) := by
      exact_mod_cast hBnat
    have h5 : (32767/3 : ℝ) / maxAbs (rawWaveform f d n) = (1/3) * 32767 / maxAbs (rawWaveform f d n) := by
      ring
    rw [h5]
    calc (1/3 : ℝ) * 32767 / maxAbs (rawWaveform f d n) - 1
        ≤ |rawSample f d n k * 32767 / maxAbs (rawWaveform f d n)| - 1 := by linarith
      _ < |((truncInt (rawSample f d n k * 32767 / maxAbs (rawWaveform f d n)) : ℤ) : ℝ)| := h2
      _ = (((truncInt (rawSample f d n k * 32767 / maxAbs (rawWaveform f d n))).natAbs : ℕ) : ℝ) := h3
      _ ≤ ((maxAbsInt (l.take (l.length / 10)) : ℕ) : ℝ) := h4
  -- upper bound for the second half
  have hAreal : ((maxAbsInt (l.drop ((l.length + 1) / 2)) : ℕ) : ℝ) ≤
      (13/10) * (16/19)^8 * 32767 / maxAbs (rawWaveform f d n) := by
    apply maxAbsInt_cast_le (div_nonneg (by positivity) hmpos.le)
    intro x hx
    obtain ⟨j, hj_ge, hj_get⟩ := exists_index_of_mem_drop hx
    have hj_lt : j < l.length := by
      by_contra hcon
      rw [List.get?_eq_none.mpr (le_of_not_lt hcon)] at hj_get
      exact Option.noConfusion hj_get
    rw [hlen] at hj_lt
    rw [hlen] at hj_ge
    have hx_eq : x = truncInt (rawSample f d n j * 32767 / maxAbs (rawWaveform f d n)) := by
      have hg := normalizeAudio_raw_get f d hj_lt
      rw [hl] at hj_get
      rw [hg] at hj_get
      exact (Option.some_inj.mp hj_get).symm
    have hn_pos : (0:ℝ) < (n:ℝ) := by
      exact_mod_cast Nat.pos_of_ne_zero fun h0 => by omega
    have h2j : (n:ℝ) ≤ 2 * (j:ℝ) := by exact_mod_cast (by omega : n ≤ 2 * j)
    have henv : Real.exp (-3 * (j:ℝ) / (n:ℝ)) ≤ Real.exp (-(3/2 : ℝ)) := by
      rw [Real.exp_le_exp, div_le_iff hn_pos]
      linarith
    have hraw : |rawSample f d n j| ≤ (13/10) * (16/19)^8 :=
      calc |rawSample f d n j| ≤ 13/10 * Real.exp (-3 * (j:ℝ) / (n:ℝ)) :=
            abs_rawSample_le f d hd n j
        _ ≤ 13/10 * Real.exp (-(3/2 : ℝ)) := by linarith
        _ ≤ (13/10) * (16/19)^8 := by
            have := exp_three_half_le
            linarith
    rw [hx_eq]
    calc (((truncInt (rawSample f d n j * 32767 / maxAbs (rawWaveform f d n))).natAbs : ℕ) : ℝ)
        = |((truncInt (rawSample f d n j * 32767 / maxAbs (rawWaveform f d n)) : ℤ) : ℝ)| :=
          natAbs_cast_real _
      _ ≤ |rawSample f d n j * 32767 / maxAbs (rawWaveform f d n)| := abs_truncInt_le _
      _ = |rawSample f d n j| * 32767 / maxAbs (rawWaveform f d n) := by
          rw [abs_div, abs_mul, abs_of_pos hmpos,
            show |(32767:ℝ)| = 32767 by norm_num]
      _ ≤ (13/10) * (16/19)^8 * 32767 / maxAbs (rawWaveform f d n) := by gcongr
  -- combine
  have hgap : (13/10 : ℝ) * (16/19)^8 * 32767 / maxAbs (rawWaveform f d n) ≤
      (32767/3) / maxAbs (rawWaveform f d n) - 1 := by
    rw [le_sub_iff_add_le]
    have hnum : (13/10 : ℝ) * (16/19)^8 * 32767 + 13/10 ≤ 32767/3 := by norm_num
    have hc : (13/10 : ℝ) * (16/19)^8 * 32767 + maxAbs (rawWaveform f d n) ≤ 32767/3 := by
      linarith
    calc (13/10 : ℝ) * (16/19)^8 * 32767 / maxAbs (rawWaveform f d n) + 1
        = ((13/10) * (16/19)^8 * 32767 + maxAbs (rawWaveform f d n)) /
            maxAbs (rawWaveform f d n) := by
          field_simp
          ring
      _ ≤ (32767/3) / maxAbs (rawWaveform f d n) := by gcongr
  have hfin : ((maxAbsInt (l.drop ((l.length + 1) / 2)) : ℕ) : ℝ) <
      ((maxAbsInt (l.take (l.length / 10)) : ℕ) : ℝ) :=
    lt_of_le_of_lt (hAreal.trans hgap) hBreal
  exact_mod_cast hfin

end DecayTheorem

section Concrete440

theorem pyInt_44100 : pyInt ((44100:ℚ) * (1/2)) = 22050 := by
  have h : (44100:ℚ) * (1/2) = ((22050:ℤ):ℚ) := by norm_num
  rw [pyInt, h, if_pos (by norm_num : (0:ℚ) ≤ ((22050:ℤ):ℚ)), Int.floor_intCast]

theorem sampleTime_440_25 : sampleTime (1/2) 22050 25 = 1/1764 := by
  unfold sampleTime
  push_cast
  norm_num

theorem noteWave_440_25_ge : 49/100 ≤ noteWave 440 (1/1764 : ℝ) := by
  unfold noteWave
  have e1 : 2 * π * ((440:ℚ):ℝ) * (1/1764 : ℝ) = π/2 - π/882 := by push_cast; ring
  have e2 : 2 * π * (2 * ((440:ℚ):ℝ)) * (1/1764 : ℝ) = π - π/441 := by push_cast; ring
  have e3 : 2 * π * (3 * ((440:ℚ):ℝ)) * (1/1764 : ℝ) = 219 * π/441 + π := by
    push_cast; ring
  have e4 : 2 * π * (4 * ((440:ℚ):ℝ)) * (1/1764 : ℝ) = -(2 * π/441) + 2 * π := by
    push_cast; ring
  rw [e1, e2, e3, e4, sin_pi_div_two_sub, sin_pi_sub, sin_add_pi, sin_add_two_pi,
    sin_neg]
  have hpi : π < 3.15 := pi_lt_d2
  have hpi0 : 0 < π := pi_pos
  have hc0 : 1 - (π/882)^2/2 ≤ cos (π/882) := one_sub_sq_div_two_le_cos
  have h882 : π/882 ≤ (3.15:ℝ)/882 := by gcongr
  have hcsq : (π/882)^2 ≤ ((3.15:ℝ)/882)^2 :=
    pow_le_pow_left (by positivity) h882 2
  have hs2 : 0 ≤ sin (π/441) :=
    sin_nonneg_of_nonneg_of_le_pi (by positivity)
      (by rw [div_le_iff (by norm_num : (0:ℝ) < 441)]; nlinarith)
  have hs3 : sin (219 * π/441) ≤ 1 := sin_le_one _
  have hs4a : sin (2 * π/441) ≤ 2 * π/441 := Real.sin_le (by positivity)
  have hs4b : 2 * π/441 ≤ (3:ℝ)/200 := by nlinarith
  nlinarith [hc0, hcsq, hs2, hs3, hs4a, hs4b]

theorem rawSample_440_25_ge : 12/25 ≤ rawSample 440 (1/2) 22050 25 := by
  unfold rawSample
  rw [sampleTime_440_25]
  have he : -3 * (1/1764 : ℝ) / ((1/2 : ℚ) : ℝ) = -(1/294 : ℝ) := by
    push_cast; norm_num
  rw [he]
  have hexp : (293/294 : ℝ) ≤ Real.exp (-(1/294 : ℝ)) := by
    have := Real.add_one_le_exp (-(1/294 : ℝ))
    linarith
  have hnote := noteWave_440_25_ge
  have h1 : (12/25 : ℝ) ≤ (49/100) * (293/294) := by norm_num
  have h2 : (49/100 : ℝ) * (293/294) ≤ noteWave 440 (1/1764 : ℝ) * Real.exp (-(1/294 : ℝ)) := by
    apply mul_le_mul hnote hexp (by norm_num) (by linarith)
  linarith

theorem m_440_ge : 12/25 ≤ maxAbs (rawWaveform 440 (1/2) 22050) := by
  have hmem := rawSample_mem 440 (1/2) (show 25 < 22050 by norm_num)
  have hub := le_maxAbs hmem
  have h25 := rawSample_440_25_ge
  have habs := le_abs_self (rawSample 440 (1/2) 22050 25)
  linarith

theorem m_440_pos : 0 < maxAbs (rawWaveform 440 (1/2) 22050) :=
  lt_of_lt_of_le (by norm_num) m_440_ge

theorem generate_440 :
    generate_piano_note 440 (1/2) 44100 =
      some (normalizeAudio (rawWaveform 440 (1/2) 22050)) := by
  have hn : (pyInt ((44100:ℚ) * (1/2))).toNat ≠ 0 := by rw [pyInt_44100]; decide
  have hm : maxAbs (rawWaveform 440 (1/2) (pyInt ((44100:ℚ) * (1/2))).toNat) ≠ 0 := by
    rw [pyInt_44100]
    show maxAbs (rawWaveform 440 (1/2) 22050) ≠ 0
    exact ne_of_gt m_440_pos
  rw [generate_eq_some 440 (1/2) 44100 hn hm, pyInt_44100]
  rfl

theorem sampleTime_440_end : sampleTime (1/2) 22050 22049 = 22049/44100 := by
  unfold sampleTime
  push_cast
  norm_num

theorem abs_noteWave_440_end : |noteWave 440 (22049/44100 : ℝ)| ≤ 29/200 := by
  unfold noteWave
  have e1 : 2 * π * ((440:ℚ):ℝ) * (22049/44100 : ℝ) =
      -(44 * π/2205) + ((220:ℤ):ℝ) * (2 * π) := by push_cast; ring
  have e2 : 2 * π * (2 * ((440:ℚ):ℝ)) * (22049/44100 : ℝ) =
      -(88 * π/2205) + ((440:ℤ):ℝ) * (2 * π) := by push_cast; ring
  have e3 : 2 * π * (3 * ((440:ℚ):ℝ)) * (22049/44100 : ℝ) =
      -(132 * π/2205) + ((660:ℤ):ℝ) * (2 * π) := by push_cast; ring
  have e4 : 2 * π * (4 * ((440:ℚ):ℝ)) * (22049/44100 : ℝ) =
      -(176 * π/2205) + ((880:ℤ):ℝ) * (2 * π) := by push_cast; ring
  rw [e1, e2, e3, e4, sin_add_int_mul_two_pi, sin_add_int_mul_two_pi,
    sin_add_int_mul_two_pi, sin_add_int_mul_two_pi, sin_neg, sin_neg, sin_neg,
    sin_neg]
  have hpi : π < 3.15 := pi_lt_d2
  have hpi0 : 0 < π := pi_pos
  have b1a : 0 ≤ sin (44 * π/2205) :=
    sin_nonneg_of_nonneg_of_le_pi (by positivity)
      (by rw [div_le_iff (by norm_num : (0:ℝ) < 2205)]; nlinarith)
  have b1b : sin (44 * π/2205) ≤ 44 * π/2205 := Real.sin_le (by positivity)
  have b2a : 0 ≤ sin (88 * π/2205) :=
    sin_nonneg_of_nonneg_of_le_pi (by positivity)
      (by rw [div_le_iff (by norm_num : (0:ℝ) < 2205)]; nlinarith)
  have b2b : sin (88 * π/2205) ≤ 88 * π/2205 := Real.sin_le (by positivity)
  have b3a : 0 ≤ sin (132 * π/2205) :=
    sin_nonneg_of_nonneg_of_le_pi (by positivity)
      (by rw [div_le_iff (by norm_num : (0:ℝ) < 2205)]; nlinarith)
  have b3b : sin (132 * π/2205) ≤ 132 * π/2205 := Real.sin_le (by positivity)
  have b4a : 0 ≤ sin (176 * π/2205) :=
    sin_nonneg_of_nonneg_of_le_pi (by positivity)
      (by rw [div_le_iff (by norm_num : (0:ℝ) < 2205)]; nlinarith)
  have b4b : sin (176 * π/2205) ≤ 176 * π/2205 := Real.sin_le (by positivity)
  rw [abs_le]
  constructor <;> nlinarith

theorem env_440_end_le :
    Real.exp (-3 * (22049/44100 : ℝ) / ((1/2 : ℚ) : ℝ)) ≤ (14700/36749 : ℝ)^2 := by
  have he : -3 * (22049/44100 : ℝ) / ((1/2 : ℚ) : ℝ) = -(22049/7350 : ℝ) := by
    push_cast; norm_num
  rw [he]
  have h1 : (36749/14700 : ℝ) ≤ Real.exp (22049/14700) := by
    have := Real.add_one_le_exp (22049/14700 : ℝ)
    have heq : (22049/14700 : ℝ) + 1 = 36749/14700 := by norm_num
    linarith [heq ▸ this]
  have h2 : ((36749/14700 : ℝ))^2 ≤ (Real.exp (22049/14700))^2 :=
    pow_le_pow_left (by norm_num) h1 2
  have h3 : (Real.exp ((22049/14700 : ℝ)))^2 = Real.exp ((22049/7350 : ℝ)) := by
    rw [← Real.exp_nat_mul]
    norm_num
  rw [Real.exp_neg]
  have h4 : ((36749/14700 : ℝ))^2 ≤ Real.exp ((22049/7350 : ℝ)) := by
    rw [← h3]; exact h2
  have h5 : (0:ℝ) < ((36749/14700 : ℝ))^2 := by positivity
  have h6 := inv_le_inv_of_le h5 h4
  calc (Real.exp ((22049/7350 : ℝ)))⁻¹ ≤ (((36749/14700 : ℝ))^2)⁻¹ := h6
    _ = (14700/36749 : ℝ)^2 := by
        rw [← inv_pow]
        norm_num

theorem abs_rawSample_440_end : |rawSample 440 (1/2) 22050 22049| ≤ 3/125 := by
  unfold rawSample
  rw [sampleTime_440_end, abs_mul, abs_of_pos (Real.exp_pos _)]
  have h1 := abs_noteWave_440_end
  have h2 := env_440_end_le
  have h3 : (0:ℝ) < Real.exp (-3 * (22049/44100 : ℝ) / ((1/2 : ℚ) : ℝ)) :=
    Real.exp_pos _
  calc |noteWave 440 (22049/44100 : ℝ)| *
        Real.exp (-3 * (22049/44100 : ℝ) / ((1/2 : ℚ) : ℝ))
      ≤ (29/200) * ((14700/36749 : ℝ)^2) := by
        apply mul_le_mul h1 h2 h3.le (by norm_num)
    _ ≤ 3/125 := by norm_num

end Concrete440

section Claim3And6

theorem get0_440 :
    (normalizeAudio (rawWaveform 440 (1/2) 22050)).get? 0 = some 0 := by
  rw [normalizeAudio_raw_get 440 (1/2) (show 0 < 22050 by norm_num),
    rawSample_zero, zero_mul, zero_div, truncInt_zero]

theorem peak_440 :
    maxAbsInt (normalizeAudio (rawWaveform 440 (1/2) 22050)) = 32767 := by
  apply normalizeAudio_peak
  · intro hemp
    have hlen := rawWaveform_length 440 (1/2) 22050
    rw [hemp] at hlen
    norm_num at hlen
  · exact ne_of_gt m_440_pos

/-- C3 (counterexample).  The claim states that in the output of
`synthesize(440.0, 0.5, 44100)` the sample at index 0 has magnitude close
to the peak of the buffer.  In fact the sample at index 0 is exactly 0
(every harmonic is a sine vanishing at t = 0) while the peak is 32767, so
its magnitude is not within even half of the peak. -/
theorem C3_counterexample :
    ∃ l, generate_piano_note 440 (1/2) 44100 = some l ∧
      ∃ x, l.get? 0 = some x ∧ 2 * x.natAbs < maxAbsInt l := by
  refine ⟨_, generate_440, 0, get0_440, ?_⟩
  rw [peak_440]
  norm_num

/-- C3 (amended).  `synthesize(440.0, 0.5, 44100)` returns exactly 22050
samples; the sample at index 0 is exactly 0 (the onset sample, one sample
before the attack builds up); the peak absolute sample of the buffer is
32767; and the sample at index 22049 has magnitude under 6 percent of that
peak (the envelope has decayed to about exp(-3)). -/
theorem C3_end_to_end :
    ∃ l, generate_piano_note 440 (1/2) 44100 = some l ∧ l.length = 22050 ∧
      l.get? 0 = some 0 ∧ maxAbsInt l = 32767 ∧
      ∃ x, l.get? 22049 = some x ∧ 100 * x.natAbs < 6 * 32767 := by
  refine ⟨_, generate_440, ?_, get0_440, peak_440, ?_⟩
  · rw [normalizeAudio_length, rawWaveform_length]
  refine ⟨truncInt (rawSample 440 (1/2) 22050 22049 * 32767 /
      maxAbs (rawWaveform 440 (1/2) 22050)),
    normalizeAudio_raw_get 440 (1/2) (show 22049 < 22050 by norm_num), ?_⟩
  have hmge := m_440_ge
  have hmpos := m_440_pos
  have h1 : |rawSample 440 (1/2) 22050 22049 * 32767 /
      maxAbs (rawWaveform 440 (1/2) 22050)| ≤ (3/125) * 32767 / (12/25) := by
    rw [abs_div, abs_mul, abs_of_pos hmpos,
      show |(32767:ℝ)| = 32767 from by norm_num]
    have hnum : |rawSample 440 (1/2) 22050 22049| * 32767 ≤ (3/125) * 32767 := by
      nlinarith [abs_rawSample_440_end]
    calc |rawSample 440 (1/2) 22050 22049| * 32767 /
          maxAbs (rawWaveform 440 (1/2) 22050)
        ≤ ((3/125) * 32767) / maxAbs (rawWaveform 440 (1/2) 22050) := by gcongr
      _ ≤ ((3/125) * 32767) / (12/25) := by gcongr
  have h2 := abs_truncInt_le (rawSample 440 (1/2) 22050 22049 * 32767 /
    maxAbs (rawWaveform 440 (1/2) 22050))
  have h3 := natAbs_cast_real (truncInt (rawSample 440 (1/2) 22050 22049 * 32767 /
    maxAbs (rawWaveform 440 (1/2) 22050)))
  have hfin : ((100 * (truncInt (rawSample 440 (1/2) 22050 22049 * 32767 /
      maxAbs (rawWaveform 440 (1/2) 22050))).natAbs : ℕ) : ℝ) <
      ((6 * 32767 : ℕ) : ℝ) := by
    push_cast
    nlinarith [h1, h2, h3]
  exact_mod_cast hfin

/-- C6 (witness).  Instantiation of the amended decay claim at
frequency 440, duration 1/2, sample rate 44100 (a buffer of 220 periods of
the fundamental): sample 25 of the raw waveform lies in the first tenth
and exceeds 1/3 in absolute value, and the second-half maximum of the
output is strictly below the first-tenth maximum. -/
theorem C6_witness :
    ((pyInt ((44100:ℚ) * (1/2))).toNat = 22050 ∧
      generate_piano_note 440 (1/2) 44100 =
        some (normalizeAudio (rawWaveform 440 (1/2) 22050)) ∧
      25 < 22050 / 10 ∧
      (1/3 : ℝ) ≤ |rawSample 440 (1/2) 22050 25|) ∧
      maxAbsInt ((normalizeAudio (rawWaveform 440 (1/2) 22050)).drop
          (((normalizeAudio (rawWaveform 440 (1/2) 22050)).length + 1) / 2)) <
        maxAbsInt ((normalizeAudio (rawWaveform 440 (1/2) 22050)).take
          ((normalizeAudio (rawWaveform 440 (1/2) 22050)).length / 10)) := by
  have hn_eq : (pyInt ((44100:ℚ) * (1/2))).toNat = 22050 := by
    rw [pyInt_44100]; rfl
  have hbig : (1/3 : ℝ) ≤ |rawSample 440 (1/2) 22050 25| := by
    have h := rawSample_440_25_ge
    have habs := le_abs_self (rawSample 440 (1/2) 22050 25)
    linarith
  exact ⟨⟨hn_eq, generate_440, by norm_num, hbig⟩,
    C6_decay 440 (1/2) 44100 22050 _ 25 hn_eq generate_440 (by norm_num) hbig⟩

theorem rawSample_100_zero (k : ℕ) : rawSample 100 1 100 k = 0 := by
  unfold rawSample noteWave
  have ht : sampleTime 1 100 k = (k : ℝ) / 100 := by
    unfold sampleTime
    push_cast
    ring
  rw [ht]
  have e1 : 2 * π * ((100:ℚ):ℝ) * ((k:ℝ)/100) = ((2 * k : ℤ):ℝ) * π := by
    push_cast; ring
  have e2 : 2 * π * (2 * ((100:ℚ):ℝ)) * ((k:ℝ)/100) = ((4 * k : ℤ):ℝ) * π := by
    push_cast; ring
  have e3 : 2 * π * (3 * ((100:ℚ):ℝ)) * ((k:ℝ)/100) = ((6 * k : ℤ):ℝ) * π := by
    push_cast; ring
  have e4 : 2 * π * (4 * ((100:ℚ):ℝ)) * ((k:ℝ)/100) = ((8 * k : ℤ):ℝ) * π := by
    push_cast; ring
  rw [e1, e2, e3, e4, sin_int_mul_pi, sin_int_mul_pi, sin_int_mul_pi,
    sin_int_mul_pi]
  ring

theorem maxAbs_100_zero : maxAbs (rawWaveform 100 1 100) = 0 := by
  apply le_antisymm
  · apply maxAbs_le le_rfl
    intro x hx
    obtain ⟨k, _, rfl⟩ := List.mem_map.mp hx
    rw [rawSample_100_zero]
    simp
  · exact maxAbs_nonneg _

theorem pyInt_100 : pyInt ((100:ℚ) * 1) = 100 := by
  have h : (100:ℚ) * 1 = ((100:ℤ):ℚ) := by norm_num
  rw [pyInt, h, if_pos (by norm_num : (0:ℚ) ≤ ((100:ℤ):ℚ)), Int.floor_intCast]

/-- C6 (counterexample).  The claim quantifies over every frequency and
sample rate and every duration long enough to span several periods of the
fundamental.  At frequency 100, duration 1 (one hundred periods of the
fundamental) and sample rate 100, every sample instant lands on a whole
period of every harmonic, so the raw waveform is identically zero: the
code divides 0 by 0 (NaN buffer, embedded as `none`) and returns no
buffer, so in particular no buffer with the claimed strict inequality
between the second-half and first-tenth maxima exists. -/
theorem C6_counterexample :
    (0:ℚ) < 100 ∧ (0:ℚ) < 1 ∧ (0:ℚ) < 100 ∧
      ¬ ∃ l, generate_piano_note 100 1 100 = some l ∧
        maxAbsInt (l.drop ((l.length + 1) / 2)) <
          maxAbsInt (l.take (l.length / 10)) := by
  refine ⟨by norm_num, by norm_num, by norm_num, ?_⟩
  rintro ⟨l, hl, _⟩
  have hnone : generate_piano_note 100 1 100 = none := by
    apply generate_eq_none_of_max_zero
    rw [pyInt_100]
    show maxAbs (rawWaveform 100 1 100) = 0
    exact maxAbs_100_zero
  rw [hnone] at hl
  exact Option.noConfusion hl

end Claim3And6
